import Mathlib

/-!
Verification of the gamescope libinput input-stealer core
(`src/LibInputHandler.cpp`).

The development models the event-drain loop `CLibInputHandler::OnPollIn`,
the libinput open/close interface `s_LibInputInterface`
(`open_restricted` / `close_restricted`) and the explicit-device branch of
`CLibInputHandler::Init` as pure Lean functions.

Modelling conventions:
- `s_uSequence` is a C `uint32_t`; it is modelled as a `Nat` whose
  increment is `(n + 1) % 2^32`, matching the wraparound of `++` on a
  32-bit unsigned counter.
- `held_keys : std::bitset<KEY_MAX+1>` is modelled as a `Finset ℕ`; the
  source only flips bits for codes `uKey <= KEY_MAX`, which the model
  mirrors with the same guard.
- The `double` scroll accumulators are modelled as rationals `ℚ`.  Every
  concrete value used in the theorems below (multiples of `1/120` such as
  `60/120`, `-30/120`, `90/120`) is a small dyadic rational that IEEE-754
  double arithmetic represents and adds exactly, so the rational model
  agrees with the source on those inputs.
- Calls out of the core (`wlserver_*`, `NotifyPhysicalInput`, `ioctl`,
  logging) are recorded as emitted events / side effects, since the core
  never reads their results (per-descriptor `ioctl` failures are logged
  and ignored by the source).
-/

/-- `KEY_MAX` from `linux/input-event-codes.h` (0x2ff). -/
def KEY_MAX : ℕ := 767

/-- `KEY_G` from `linux/input-event-codes.h`. -/
def KEY_G : ℕ := 34

/-- `KEY_LEFTMETA` from `linux/input-event-codes.h`. -/
def KEY_LEFTMETA : ℕ := 125

/-- Externally supplied configuration: `g_libinputSelectedDevices`.
An empty list is seat-wide mode; a non-empty list is explicit-path mode. -/
structure Config where
  selectedDevices : List String
deriving DecidableEq

/-- Mutable state of the handler: the static locals of `OnPollIn`
(`s_uSequence`, `held_keys`, `toggle_grab_on_all_keys_up`), the globals
`g_bGrabbed` and `g_libinputSelectedDevices_grabbed_fds`, and the member
scroll accumulators `m_flScrollAccum[0] / [1]`. -/
structure HState where
  uSequence : ℕ
  heldKeys : Finset ℕ
  armed : Bool
  grabbed : Bool
  scrollX : ℚ
  scrollY : ℚ
  trackedFds : List ℤ
deriving DecidableEq

/-- Initial handler state at process start: counter 0, no held keys,
toggle flag clear, `g_bGrabbed` as configured at startup, zero scroll
accumulation, and the given tracked descriptors. -/
def initState (g : Bool) (fds : List ℤ) : HState :=
  ⟨0, ∅, false, g, 0, 0, fds⟩

/-- Raw libinput events drained by `OnPollIn`, by `libinput_event_type`.
For `POINTER_SCROLL_WHEEL`, each axis is `some v120` when
`libinput_event_pointer_has_axis` holds for it, carrying the
`get_scroll_value_v120` reading. -/
inductive RawEvent
  | pointerMotion (dx dy : ℚ)
  | pointerMotionAbsolute (x y : ℚ)
  | pointerButton (code : ℕ) (pressed : Bool)
  | pointerScrollWheel (h v : Option ℚ)
  | keyboardKey (key : ℕ) (pressed : Bool)
  | otherEvent
deriving DecidableEq

/-- Normalized events handed to the consumer (`wlserver_*` calls), each
stamped with the sequence number passed as the call's `seq` argument. -/
inductive OutEvent
  | motion (dx dy : ℚ) (seq : ℕ)
  | warp (x y : ℚ) (seq : ℕ) (absolute : Bool)
  | button (code : ℕ) (pressed : Bool) (seq : ℕ)
  | key (code : ℕ) (pressed : Bool) (seq : ℕ)
  | wheel (dx dy : ℚ) (seq : ℕ)
deriving DecidableEq

/-- Sequence number attached to an emitted event. -/
def outSeq : OutEvent → ℕ
  | .motion _ _ q => q
  | .warp _ _ q _ => q
  | .button _ _ q => q
  | .key _ _ q => q
  | .wheel _ _ q => q

/-- Whether an emitted event is the combined wheel event. -/
def isWheel : OutEvent → Bool
  | .wheel _ _ _ => true
  | _ => false

/-- Side effects other than consumer calls: `EVIOCGRAB` ioctls, the
physical-input notification, and log lines. -/
inductive SideEffect
  | ioctlGrab (fd : ℤ)
  | ioctlUngrab (fd : ℤ)
  | warnGrabFail
  | warnUngrabFail
  | logOpenError
  | notifyPhysicalInput
deriving DecidableEq

/-- Bit update of `held_keys` on one key event:
`if (uKey <= KEY_MAX) held_keys[uKey] = (eState == PRESSED);`. -/
def updateHeld (held : Finset ℕ) (key : ℕ) (pressed : Bool) : Finset ℕ :=
  if key ≤ KEY_MAX then (if pressed then insert key held else held.erase key) else held

/-- Result of processing one `LIBINPUT_EVENT_KEYBOARD_KEY` event:
the new state, whether the grab toggle fired on this event, the consumer
calls made, and the side effects performed. -/
structure KeyResult where
  state : HState
  fired : Bool
  outs : List OutEvent
  effs : List SideEffect
deriving DecidableEq

/-- `++s_uSequence` on a `uint32_t`: increment with 32-bit wraparound. -/
def nextSeq (s : HState) : ℕ := (s.uSequence + 1) % 2 ^ 32

/-- `held_keys` right after the bit update of one key event. -/
def heldAfter (s : HState) (key : ℕ) (pressed : Bool) : Finset ℕ :=
  updateHeld s.heldKeys key pressed

/-- `toggle_grab_on_all_keys_up` right after
`if (held_keys[KEY_G] && held_keys[KEY_LEFTMETA]) toggle_grab_on_all_keys_up = true;`. -/
def armedAfter (s : HState) (key : ℕ) (pressed : Bool) : Bool :=
  if KEY_G ∈ heldAfter s key pressed ∧ KEY_LEFTMETA ∈ heldAfter s key pressed then true
  else s.armed

/-- The `LIBINPUT_EVENT_KEYBOARD_KEY` case of `OnPollIn`:
update `held_keys`; set `toggle_grab_on_all_keys_up` while both chord keys
are held; if the flag is set and `held_keys.none()`, clear the flag, flip
`g_bGrabbed`, re-apply/release `EVIOCGRAB` on every tracked descriptor and
fall through to `wlserver_key`; otherwise the event is dropped when
`!g_bGrabbed` and the explicit device list is non-empty, and forwarded to
`wlserver_key` otherwise. -/
def stepKey (c : Config) (s : HState) (key : ℕ) (pressed : Bool) : KeyResult :=
  if armedAfter s key pressed = true ∧ heldAfter s key pressed = (∅ : Finset ℕ) then
    { state := { s with heldKeys := heldAfter s key pressed, armed := false,
                        grabbed := !s.grabbed, uSequence := nextSeq s },
      fired := true,
      outs := [OutEvent.key key pressed (nextSeq s)],
      effs := s.trackedFds.map fun fd =>
        if !s.grabbed then SideEffect.ioctlGrab fd else SideEffect.ioctlUngrab fd }
  else if s.grabbed = false ∧ 0 < c.selectedDevices.length then
    { state := { s with heldKeys := heldAfter s key pressed,
                        armed := armedAfter s key pressed },
      fired := false, outs := [], effs := [] }
  else
    { state := { s with heldKeys := heldAfter s key pressed,
                        armed := armedAfter s key pressed, uSequence := nextSeq s },
      fired := false,
      outs := [OutEvent.key key pressed (nextSeq s)],
      effs := [] }

/-- Result of processing events: final state, consumer calls, side
effects. -/
structure StepResult where
  state : HState
  outs : List OutEvent
  effs : List SideEffect
deriving DecidableEq

/-- One iteration of the drain loop of `OnPollIn`, dispatching on the
libinput event type.  Pointer motion / absolute motion / button / scroll
events are dropped when `!g_bGrabbed && g_libinputSelectedDevices.size() > 0`;
otherwise they are forwarded (motion/warp also notify physical input) or,
for scroll, accumulated per present axis as `v120 / 120.0`.  Unrecognized
events are discarded. -/
def stepEvent (c : Config) (s : HState) : RawEvent → StepResult
  | .pointerMotion dx dy =>
      if s.grabbed = false ∧ 0 < c.selectedDevices.length then ⟨s, [], []⟩
      else
        ⟨{ s with uSequence := nextSeq s }, [.motion dx dy (nextSeq s)],
         [.notifyPhysicalInput]⟩
  | .pointerMotionAbsolute x y =>
      if s.grabbed = false ∧ 0 < c.selectedDevices.length then ⟨s, [], []⟩
      else
        ⟨{ s with uSequence := nextSeq s }, [.warp x y (nextSeq s) true],
         [.notifyPhysicalInput]⟩
  | .pointerButton code pressed =>
      if s.grabbed = false ∧ 0 < c.selectedDevices.length then ⟨s, [], []⟩
      else
        ⟨{ s with uSequence := nextSeq s }, [.button code pressed (nextSeq s)], []⟩
  | .pointerScrollWheel h v =>
      if s.grabbed = false ∧ 0 < c.selectedDevices.length then ⟨s, [], []⟩
      else
        ⟨{ s with scrollX := (match h with | some t => s.scrollX + t / 120 | none => s.scrollX),
                  scrollY := (match v with | some t => s.scrollY + t / 120 | none => s.scrollY) },
         [], []⟩
  | .keyboardKey key pressed =>
      ⟨(stepKey c s key pressed).state, (stepKey c s key pressed).outs,
       (stepKey c s key pressed).effs⟩
  | .otherEvent => ⟨s, [], []⟩

/-- The drain loop of `OnPollIn`: process every queued raw event in
order, concatenating consumer calls and side effects. -/
def drain (c : Config) (s : HState) : List RawEvent → StepResult
  | [] => ⟨s, [], []⟩
  | e :: rest =>
      let r₁ := stepEvent c s e
      let r₂ := drain c r₁.state rest
      ⟨r₂.state, r₁.outs ++ r₂.outs, r₁.effs ++ r₂.effs⟩

/-- The scroll flush at the end of `OnPollIn`: copy and zero both
accumulators, and emit one `wlserver_mousewheel` call iff either copied
value is nonzero. -/
def flushScroll (s : HState) : HState × List OutEvent :=
  if s.scrollX ≠ 0 ∨ s.scrollY ≠ 0 then
    ({ s with scrollX := 0, scrollY := 0, uSequence := nextSeq s },
     [.wheel s.scrollX s.scrollY (nextSeq s)])
  else ({ s with scrollX := 0, scrollY := 0 }, [])

/-- One full `OnPollIn` invocation: drain the queue, then flush the
scroll accumulators. -/
def onPollIn (c : Config) (s : HState) (evs : List RawEvent) : StepResult :=
  let r := drain c s evs
  let f := flushScroll r.state
  ⟨f.1, r.outs ++ f.2, r.effs⟩

/-- Environment seen by `s_LibInputInterface` callbacks:
`g_libinputSelectedDevices` and `g_bGrabbed` at the time of the call. -/
structure OpenCtx where
  selectedDevices : List String
  grabbed : Bool
deriving DecidableEq

/-- `s_LibInputInterface.open_restricted`.  `openResult` is what
`open(pszPath, nFlags)` returns (`none` for `-1`), `grabOk` whether
`ioctl(fd, EVIOCGRAB, 1)` would succeed.  In explicit mode a failed open
is logged and reported as failure; a successful open grabs (best effort,
only when `g_bGrabbed`) and pushes the descriptor onto
`g_libinputSelectedDevices_grabbed_fds`.  In seat-wide mode the callback
is a plain `open`. -/
def open_restricted (ctx : OpenCtx) (openResult : Option ℤ) (grabOk : Bool)
    (tracked : List ℤ) : Option ℤ × List ℤ × List SideEffect :=
  if 0 < ctx.selectedDevices.length then
    match openResult with
    | none => (none, tracked, [SideEffect.logOpenError])
    | some fd =>
        let grabEffs :=
          if ctx.grabbed then
            SideEffect.ioctlGrab fd :: (if grabOk then [] else [SideEffect.warnGrabFail])
          else []
        (some fd, tracked ++ [fd], grabEffs)
  else
    (openResult, tracked, [])

/-- `s_LibInputInterface.close_restricted`.  In explicit mode it releases
the grab (when `g_bGrabbed`, warning on failure) and erases the
descriptor from `g_libinputSelectedDevices_grabbed_fds` (the source's
`erase(remove(...))` on a vector holding each fd at most once removes
that one occurrence, as `List.erase` does); in seat-wide mode it only
closes the descriptor. -/
def close_restricted (ctx : OpenCtx) (ungrabOk : Bool) (fd : ℤ)
    (tracked : List ℤ) : List ℤ × List SideEffect :=
  if 0 < ctx.selectedDevices.length then
    let effs :=
      if ctx.grabbed then
        SideEffect.ioctlUngrab fd :: (if ungrabOk then [] else [SideEffect.warnUngrabFail])
      else []
    (tracked.erase fd, effs)
  else
    (tracked, [])

/-- One entry of `g_libinputSelectedDevices` for `Init`: the path and
whether `libinput_path_add_device` succeeds on it (it returns `NULL`
exactly when the underlying `open_restricted` fails to open the path). -/
structure PathSpec where
  path : String
  opensOk : Bool
deriving DecidableEq

/-- The device loop of `CLibInputHandler::Init` in explicit mode: walk
the configured paths in order; a successful `libinput_path_add_device`
opens the device (counted in `opened`), a failed one logs an error and
makes `Init` return `false` immediately. -/
def addDeviceLoop (opened : ℕ) : List PathSpec → Bool × ℕ
  | [] => (true, opened)
  | p :: rest => if p.opensOk then addDeviceLoop (opened + 1) rest else (false, opened)

/-- `CLibInputHandler::Init`, explicit-device branch: fails if
`udev_new` fails, then if `libinput_path_create_context` fails, then runs
the add-device loop.  Returns whether `Init` returned `true` and how many
devices were successfully opened. -/
def initExplicitMode (udevOk ctxOk : Bool) (paths : List PathSpec) : Bool × ℕ :=
  if udevOk = false then (false, 0)
  else if ctxOk = false then (false, 0)
  else addDeviceLoop 0 paths

/-- Processing a sequence of `LIBINPUT_EVENT_KEYBOARD_KEY` events
`(key, pressed)` through the keyboard case of `OnPollIn`. -/
def runKeys (c : Config) (s : HState) : List (ℕ × Bool) → HState
  | [] => s
  | e :: rest => runKeys c (stepKey c s e.1 e.2).state rest

/-- State after the first `i` key events of `evs`. -/
def stateAt (c : Config) (s : HState) (evs : List (ℕ × Bool)) (i : ℕ) : HState :=
  runKeys c s (evs.take i)

/-- Whether the grab toggle fires while processing event `i` of `evs`
(`false` past the end of the sequence). -/
def firedAt (c : Config) (s : HState) (evs : List (ℕ × Bool)) (i : ℕ) : Bool :=
  match evs.get? i with
  | some e => (stepKey c (stateAt c s evs i) e.1 e.2).fired
  | none => false

/-- The press state of the most recent event for key `k` in `evs`
(`none` when `evs` has no event for `k`). -/
def lastKeyState : List (ℕ × Bool) → ℕ → Option Bool
  | [], _ => none
  | e :: rest, k =>
      match lastKeyState rest k with
      | some q => some q
      | none => if e.1 = k then some e.2 else none

/-- Pure replay of the held-key bit updates of a key-event sequence,
ignoring everything else the keyboard case does. -/
def updateHeldRun (held : Finset ℕ) : List (ℕ × Bool) → Finset ℕ
  | [] => held
  | e :: rest => updateHeldRun (updateHeld held e.1 e.2) rest

/-- Modelled from the spec: the propagation gate is open exactly "when
`Captured`, or when operating in seat-wide mode".  Stated from the spec's
words to compare against the source's per-case filter condition. -/
def specGateOpen (c : Config) (s : HState) : Bool :=
  s.grabbed || c.selectedDevices.isEmpty

/-- A one-entry explicit device list, for concrete runs. -/
def cfgExplicit : Config := ⟨["/dev/input/event3"]⟩

/-- A chord-and-full-release cycle: hold LEFTMETA and G together, then
release both. -/
def chordCycle : List (ℕ × Bool) :=
  [(KEY_LEFTMETA, true), (KEY_G, true), (KEY_LEFTMETA, false), (KEY_G, false)]

/-- Two chord-and-full-release cycles back to back. -/
def twoChordCycles : List (ℕ × Bool) := chordCycle ++ chordCycle

/-- A state with the toggle armed and only `KEY_G` still held, one
tracked descriptor, currently released. -/
def sArmedOneKey : HState := ⟨0, {KEY_G}, true, false, 0, 0, [7]⟩

/-! ## Helper lemmas -/

theorem addDeviceLoop_spec (l : List PathSpec) : ∀ acc : ℕ,
    addDeviceLoop acc l
      = (l.all fun p => p.opensOk, acc + (l.takeWhile fun p => p.opensOk).length) := by
  induction l with
  | nil => intro acc; simp [addDeviceLoop]
  | cons p rest ih =>
      intro acc
      by_cases hp : p.opensOk = true
      · simp [addDeviceLoop, hp, ih (acc + 1), List.takeWhile_cons]
        omega
      · simp [addDeviceLoop, hp, List.takeWhile_cons]

theorem stepKey_heldKeys (c : Config) (s : HState) (k : ℕ) (p : Bool) :
    (stepKey c s k p).state.heldKeys = updateHeld s.heldKeys k p := by
  unfold stepKey
  split
  · rfl
  · split <;> rfl

theorem runKeys_heldKeys (evs : List (ℕ × Bool)) : ∀ (c : Config) (s : HState),
    (runKeys c s evs).heldKeys = updateHeldRun s.heldKeys evs := by
  induction evs with
  | nil => intros; rfl
  | cons e rest ih =>
      intro c s
      simp only [runKeys, updateHeldRun]
      rw [ih, stepKey_heldKeys]

theorem mem_updateHeld_ne (held : Finset ℕ) (key k : ℕ) (p : Bool) (h : key ≠ k) :
    (k ∈ updateHeld held key p ↔ k ∈ held) := by
  unfold updateHeld
  split
  · split
    · simp [Finset.mem_insert, Ne.symm h]
    · simp [Finset.mem_erase, Ne.symm h]
  · exact Iff.rfl

theorem updateHeldRun_mem_le (k : ℕ) (hk : k ≤ KEY_MAX) (evs : List (ℕ × Bool)) :
    ∀ held : Finset ℕ,
      (k ∈ updateHeldRun held evs ↔
        (match lastKeyState evs k with
         | some p => p = true
         | none => k ∈ held)) := by
  induction evs with
  | nil => intro held; exact Iff.rfl
  | cons e rest ih =>
      intro held
      simp only [updateHeldRun, lastKeyState]
      rw [ih (updateHeld held e.1 e.2)]
      cases hr : lastKeyState rest k with
      | some q => simp
      | none =>
          simp only []
          by_cases he : e.1 = k
          · subst he
            unfold updateHeld
            rw [if_pos hk]
            cases hp : e.2 <;> simp
          · rw [mem_updateHeld_ne held e.1 k e.2 he, if_neg he]

theorem updateHeldRun_mem_gt (k : ℕ) (hk : KEY_MAX < k) (evs : List (ℕ × Bool)) :
    ∀ held : Finset ℕ, (k ∈ updateHeldRun held evs ↔ k ∈ held) := by
  induction evs with
  | nil => intro held; exact Iff.rfl
  | cons e rest ih =>
      intro held
      simp only [updateHeldRun]
      rw [ih (updateHeld held e.1 e.2)]
      by_cases he : e.1 = k
      · subst he
        unfold updateHeld
        rw [if_neg (by omega)]
      · exact mem_updateHeld_ne held e.1 k e.2 he

theorem stepEvent_no_wheel (c : Config) (s : HState) (e : RawEvent) :
    ((stepEvent c s e).outs.filter fun o => isWheel o) = [] := by
  cases e <;> simp only [stepEvent] <;>
    first
      | rfl
      | (split <;> simp [isWheel])
      | (unfold stepKey
         split
         · simp [isWheel]
         · split <;> simp [isWheel])

theorem drain_wheel_filter (evs : List RawEvent) : ∀ (c : Config) (s : HState),
    ((drain c s evs).outs.filter fun o => isWheel o) = [] := by
  induction evs with
  | nil => intros; rfl
  | cons e rest ih =>
      intro c s
      simp only [drain]
      rw [List.filter_append, stepEvent_no_wheel, ih]
      rfl

theorem stepEvent_motion (c : Config) (s : HState) (dx dy : ℚ) :
    stepEvent c s (.pointerMotion dx dy)
      = if s.grabbed = false ∧ 0 < c.selectedDevices.length then ⟨s, [], []⟩
        else ⟨{ s with uSequence := nextSeq s }, [.motion dx dy (nextSeq s)],
              [.notifyPhysicalInput]⟩ := rfl

theorem stepEvent_warp (c : Config) (s : HState) (x y : ℚ) :
    stepEvent c s (.pointerMotionAbsolute x y)
      = if s.grabbed = false ∧ 0 < c.selectedDevices.length then ⟨s, [], []⟩
        else ⟨{ s with uSequence := nextSeq s }, [.warp x y (nextSeq s) true],
              [.notifyPhysicalInput]⟩ := rfl

theorem stepEvent_button (c : Config) (s : HState) (code : ℕ) (pr : Bool) :
    stepEvent c s (.pointerButton code pr)
      = if s.grabbed = false ∧ 0 < c.selectedDevices.length then ⟨s, [], []⟩
        else ⟨{ s with uSequence := nextSeq s }, [.button code pr (nextSeq s)], []⟩ := rfl

theorem stepEvent_scroll (c : Config) (s : HState) (h v : Option ℚ) :
    stepEvent c s (.pointerScrollWheel h v)
      = if s.grabbed = false ∧ 0 < c.selectedDevices.length then ⟨s, [], []⟩
        else ⟨{ s with
                scrollX := (match h with | some t => s.scrollX + t / 120 | none => s.scrollX),
                scrollY := (match v with | some t => s.scrollY + t / 120 | none => s.scrollY) },
              [], []⟩ := rfl

theorem stepEvent_key (c : Config) (s : HState) (key : ℕ) (pr : Bool) :
    stepEvent c s (.keyboardKey key pr)
      = ⟨(stepKey c s key pr).state, (stepKey c s key pr).outs,
         (stepKey c s key pr).effs⟩ := rfl

theorem stepEvent_other (c : Config) (s : HState) :
    stepEvent c s .otherEvent = ⟨s, [], []⟩ := rfl

theorem stepEvent_seq (c : Config) (s : HState) (e : RawEvent) :
    ((stepEvent c s e).outs = [] ∧ (stepEvent c s e).state.uSequence = s.uSequence) ∨
    (∃ o, (stepEvent c s e).outs = [o] ∧
      (stepEvent c s e).state.uSequence = nextSeq s ∧ outSeq o = nextSeq s) := by
  cases e
  case pointerMotion dx dy =>
    rw [stepEvent_motion]
    split
    · exact Or.inl ⟨rfl, rfl⟩
    · exact Or.inr ⟨_, rfl, rfl, rfl⟩
  case pointerMotionAbsolute x y =>
    rw [stepEvent_warp]
    split
    · exact Or.inl ⟨rfl, rfl⟩
    · exact Or.inr ⟨_, rfl, rfl, rfl⟩
  case pointerButton code pr =>
    rw [stepEvent_button]
    split
    · exact Or.inl ⟨rfl, rfl⟩
    · exact Or.inr ⟨_, rfl, rfl, rfl⟩
  case pointerScrollWheel h v =>
    rw [stepEvent_scroll]
    split
    · exact Or.inl ⟨rfl, rfl⟩
    · exact Or.inl ⟨rfl, rfl⟩
  case keyboardKey key pr =>
    rw [stepEvent_key]
    unfold stepKey
    split
    · exact Or.inr ⟨_, rfl, rfl, rfl⟩
    · split
      · exact Or.inl ⟨rfl, rfl⟩
      · exact Or.inr ⟨_, rfl, rfl, rfl⟩
  case otherEvent =>
    exact Or.inl ⟨rfl, rfl⟩

theorem drain_seq (evs : List RawEvent) : ∀ (c : Config) (s : HState),
    s.uSequence < 2 ^ 32 →
    ((drain c s evs).outs.map outSeq
        = (List.range (drain c s evs).outs.length).map
            (fun i => (s.uSequence + i + 1) % 2 ^ 32) ∧
     (drain c s evs).state.uSequence
        = (s.uSequence + (drain c s evs).outs.length) % 2 ^ 32 ∧
     (drain c s evs).state.uSequence < 2 ^ 32) := by
  have h32 : (2 : ℕ) ^ 32 = 4294967296 := by norm_num
  induction evs with
  | nil =>
      intro c s hs
      refine ⟨rfl, ?_, hs⟩
      show s.uSequence = (s.uSequence + 0) % 2 ^ 32
      rw [Nat.add_zero, Nat.mod_eq_of_lt hs]
  | cons e rest ih =>
      intro c s hs
      simp only [drain]
      rcases stepEvent_seq c s e with ⟨ho, hseq⟩ | ⟨o, ho, hseq, hos⟩
      · have hlt : (stepEvent c s e).state.uSequence < 2 ^ 32 := by rw [hseq]; exact hs
        obtain ⟨ih₁, ih₂, ih₃⟩ := ih c (stepEvent c s e).state hlt
        rw [ho]
        simp only [List.nil_append]
        rw [hseq] at ih₁ ih₂
        exact ⟨ih₁, ih₂, ih₃⟩
      · have hlt : (stepEvent c s e).state.uSequence < 2 ^ 32 := by
          rw [hseq]; exact Nat.mod_lt _ (by norm_num)
        obtain ⟨ih₁, ih₂, ih₃⟩ := ih c (stepEvent c s e).state hlt
        rw [ho]
        simp only [List.cons_append, List.nil_append, List.map_cons, List.length_cons]
        refine ⟨?_, ?_, ih₃⟩
        · rw [hos, ih₁, hseq, List.range_succ_eq_map, List.map_cons, List.map_map,
            List.cons_eq_cons]
          constructor
          · simp only [nextSeq, h32]
            try omega
          · refine List.map_congr_left ?_
            intro i _
            simp only [Function.comp_apply, nextSeq, Nat.succ_eq_add_one, h32]
            omega
        · rw [ih₂, hseq]
          simp only [nextSeq, h32]
          omega

theorem onPollIn_seq (c : Config) (s : HState) (evs : List RawEvent)
    (h : s.uSequence < 2 ^ 32) :
    (onPollIn c s evs).outs.map outSeq
      = (List.range (onPollIn c s evs).outs.length).map
          (fun i => (s.uSequence + i + 1) % 2 ^ 32) ∧
    (onPollIn c s evs).state.uSequence
      = (s.uSequence + (onPollIn c s evs).outs.length) % 2 ^ 32 := by
  have h32 : (2 : ℕ) ^ 32 = 4294967296 := by norm_num
  obtain ⟨h₁, h₂, h₃⟩ := drain_seq evs c s h
  simp only [onPollIn]
  unfold flushScroll
  split
  · simp only [List.map_append, List.length_append, List.map_cons, List.map_nil,
      List.length_cons, List.length_nil]
    constructor
    · rw [h₁, List.range_succ, List.map_append]
      congr 1
      simp only [List.map_cons, List.map_nil, outSeq, nextSeq, List.cons_eq_cons]
      refine ⟨?_, trivial⟩
      rw [h₂]
      simp only [h32]
      omega
    · show nextSeq (drain c s evs).state = _
      simp only [nextSeq]
      rw [h₂]
      simp only [h32]
      omega
  · simp only [List.append_nil]
    exact ⟨h₁, h₂⟩

theorem drain_vscroll (l : List ℚ) : ∀ s : HState,
    ((drain ⟨[]⟩ s (l.map fun t => RawEvent.pointerScrollWheel none (some t))).state.scrollY
        = s.scrollY + (l.map fun t => t / 120).sum ∧
     (drain ⟨[]⟩ s (l.map fun t => RawEvent.pointerScrollWheel none (some t))).state.scrollX
        = s.scrollX ∧
     (drain ⟨[]⟩ s (l.map fun t => RawEvent.pointerScrollWheel none (some t))).state.uSequence
        = s.uSequence ∧
     (drain ⟨[]⟩ s (l.map fun t => RawEvent.pointerScrollWheel none (some t))).outs = []) := by
  induction l with
  | nil => intro s; refine ⟨by simp [drain], rfl, rfl, rfl⟩
  | cons t rest ih =>
      intro s
      simp only [List.map_cons, drain]
      have hstep : stepEvent ⟨[]⟩ s (RawEvent.pointerScrollWheel none (some t))
          = ⟨{ s with scrollX := s.scrollX, scrollY := s.scrollY + t / 120 }, [], []⟩ := by
        simp [stepEvent]
      rw [hstep]
      obtain ⟨ih₁, ih₂, ih₃, ih₄⟩ :=
        ih { s with scrollX := s.scrollX, scrollY := s.scrollY + t / 120 }
      refine ⟨?_, ih₂.trans rfl, ih₃.trans rfl, ih₄⟩
      rw [ih₁]
      show s.scrollY + t / 120 + (List.map (fun t => t / 120) rest).sum
          = s.scrollY + (List.map (fun t => t / 120) (t :: rest)).sum
      rw [List.map_cons, List.sum_cons]
      ring

theorem drain_replicate_motion (n : ℕ) : ∀ s : HState,
    ((drain ⟨[]⟩ s (List.replicate n (RawEvent.pointerMotion 1 0))).outs.length = n ∧
     (drain ⟨[]⟩ s (List.replicate n (RawEvent.pointerMotion 1 0))).state.scrollX = s.scrollX ∧
     (drain ⟨[]⟩ s (List.replicate n (RawEvent.pointerMotion 1 0))).state.scrollY = s.scrollY) := by
  induction n with
  | zero => intro s; exact ⟨rfl, rfl, rfl⟩
  | succ m ih =>
      intro s
      rw [List.replicate_succ]
      simp only [drain]
      have hstep : stepEvent ⟨[]⟩ s (RawEvent.pointerMotion 1 0)
          = ⟨{ s with uSequence := nextSeq s }, [.motion 1 0 (nextSeq s)],
             [.notifyPhysicalInput]⟩ := by
        simp [stepEvent]
      rw [hstep]
      obtain ⟨ih₁, ih₂, ih₃⟩ := ih { s with uSequence := nextSeq s }
      refine ⟨?_, ih₂.trans rfl, ih₃.trans rfl⟩
      show ([OutEvent.motion 1 0 (nextSeq s)]
          ++ (drain ⟨[]⟩ { s with uSequence := nextSeq s }
                (List.replicate m (RawEvent.pointerMotion 1 0))).outs).length = m + 1
      rw [List.length_append, ih₁, List.length_singleton]
      omega

theorem getD_range_map (f : ℕ → ℕ) (n i : ℕ) (hi : i < n) :
    ((List.range n).map f).getD i 0 = f i := by
  rw [List.getD_eq_getElem?_getD, List.getElem?_map, List.getElem?_range hi]
  rfl

/-! ## Claims -/

/-- C1 (counterexample): in explicit-device-list mode while ungrabbed,
a key-press followed by its key-release (neither firing the toggle)
produces no consumer call at all — the release is suppressed by the same
gate as the press, contradicting "for every key event whose state is
'released' the event is still forwarded". -/
theorem C1_release_suppressed_counterexample :
    (onPollIn cfgExplicit (initState false [])
        [RawEvent.keyboardKey 30 true, RawEvent.keyboardKey 30 false]).outs = [] := by
  decide

/-- C1 (amended): in explicit-device-list mode while the Grab State is
Released, a key event is forwarded to the consumer if and only if it
fires the grab toggle; every other key event — press or release — is
suppressed by the propagation gate. -/
theorem C1_key_gate_amended (d : String) (ds : List String) (useq : ℕ)
    (held : Finset ℕ) (armed : Bool) (sx sy : ℚ) (fds : List ℤ)
    (key : ℕ) (pressed : Bool) :
    (stepKey ⟨d :: ds⟩ ⟨useq, held, armed, false, sx, sy, fds⟩ key pressed).outs =
      (if (stepKey ⟨d :: ds⟩ ⟨useq, held, armed, false, sx, sy, fds⟩ key pressed).fired = true
       then [OutEvent.key key pressed
              (stepKey ⟨d :: ds⟩ ⟨useq, held, armed, false, sx, sy, fds⟩ key pressed).state.uSequence]
       else []) := by
  by_cases h1 : armedAfter ⟨useq, held, armed, false, sx, sy, fds⟩ key pressed = true ∧
      heldAfter ⟨useq, held, armed, false, sx, sy, fds⟩ key pressed = (∅ : Finset ℕ)
  · simp [stepKey, h1]
  · simp [stepKey, h1]

/-- C2 (counterexample): with `udev` and the libinput context fine, a
three-path list whose middle path fails to open makes `Init` return
`false` with only one device opened — not a usable session with two
active devices as claimed. -/
theorem C2_init_counterexample :
    initExplicitMode true true
        [⟨"/dev/input/event0", true⟩, ⟨"/dev/input/event1", false⟩, ⟨"/dev/input/event2", true⟩]
      = (false, 1) ∧
    ¬ ((initExplicitMode true true
        [⟨"/dev/input/event0", true⟩, ⟨"/dev/input/event1", false⟩, ⟨"/dev/input/event2", true⟩]).1
        = true ∧
       (initExplicitMode true true
        [⟨"/dev/input/event0", true⟩, ⟨"/dev/input/event1", false⟩, ⟨"/dev/input/event2", true⟩]).2
        = 2) := by
  decide

/-- C2 (amended): in explicit mode (with `udev` and the context created),
a path that fails to open is logged and makes `Init` fail immediately,
leaving the remaining paths unattempted: `Init` succeeds iff every
supplied path opens, and the devices opened are exactly the paths of the
longest successful prefix. -/
theorem C2_init_amended (paths : List PathSpec) :
    initExplicitMode true true paths
      = (paths.all fun p => p.opensOk, (paths.takeWhile fun p => p.opensOk).length) := by
  simpa [initExplicitMode] using addDeviceLoop_spec paths 0

/-- C9 (counterexample): in seat-wide mode (empty device list), opening a
device performs no `EVIOCGRAB` ioctl at all — even with `g_bGrabbed`
set — and closing performs no release, contradicting "applies the
exclusive-access grab unconditionally at open time". -/
theorem C9_seatwide_counterexample :
    open_restricted ⟨[], true⟩ (some 5) true [] = (some 5, [], []) ∧
    SideEffect.ioctlGrab 5 ∉ (open_restricted ⟨[], true⟩ (some 5) true []).2.2 ∧
    close_restricted ⟨[], true⟩ true 5 [] = ([], []) := by
  refine ⟨rfl, ?_, rfl⟩
  decide

/-- C9 (amended): in SeatWide mode the interface callbacks apply no
exclusive-access control at all: `open_restricted` just passes the OS
open result through (no grab ioctl, tracked list untouched) and
`close_restricted` just closes (no release).  The grab ioctl is issued at
open only in explicit-device-list mode when `g_bGrabbed` is set. -/
theorem C9_seatwide_amended (b : Bool) (r : Option ℤ) (g : Bool) (t : List ℤ)
    (u : Bool) (fd : ℤ) :
    open_restricted ⟨[], b⟩ r g t = (r, t, []) ∧
    close_restricted ⟨[], b⟩ u fd t = (t, []) := by
  constructor <;> rfl

/-- C10: in explicit-device-list mode every successfully opened
descriptor is appended to the tracked list even when the grab ioctl
fails (`grabOk = false`); no drained event (in particular a firing grab
toggle) ever changes the tracked list; when the toggle fires it issues
the new grab/release ioctl on every tracked descriptor; and a descriptor
leaves the list only through `close_restricted`, which erases it. -/
theorem C10_tracked_descriptors :
    (∀ (p : String) (ps : List String) (b : Bool) (fd : ℤ) (g : Bool) (t : List ℤ),
      (open_restricted ⟨p :: ps, b⟩ (some fd) g t).2.1 = t ++ [fd]) ∧
    (∀ (c : Config) (s : HState) (e : RawEvent),
      (stepEvent c s e).state.trackedFds = s.trackedFds) ∧
    (∀ (c : Config) (s : HState) (k : ℕ) (pr : Bool),
      (stepKey c s k pr).fired = true →
        (stepKey c s k pr).effs = s.trackedFds.map fun fd =>
          if (stepKey c s k pr).state.grabbed then SideEffect.ioctlGrab fd
          else SideEffect.ioctlUngrab fd) ∧
    (∀ (p : String) (ps : List String) (b u : Bool) (fd : ℤ) (t : List ℤ),
      (close_restricted ⟨p :: ps, b⟩ u fd t).1 = t.erase fd) := by
  refine ⟨?_, ?_, ?_, ?_⟩
  · intro p ps b fd g t
    simp [open_restricted]
  · intro c s e
    cases e <;> simp only [stepEvent] <;> first
      | rfl
      | (split <;> rfl)
      | (unfold stepKey; split
         · rfl
         · split <;> rfl)
  · intro c s k pr
    unfold stepKey
    split
    · intro _; rfl
    · split <;> intro h <;> simp at h
  · intro p ps b u fd t
    simp [close_restricted]

/-- C10 (witness): concrete instances — a grab-failed open still appends
fd 7; a drained key event keeps the tracked list; a firing toggle from a
released state grabs every tracked descriptor; closing fd 7 erases it. -/
theorem C10_tracked_witness :
    (open_restricted ⟨["kbd"], true⟩ (some 7) false []).2.1 = [] ++ [7] ∧
    (stepEvent cfgExplicit (initState false [7]) (RawEvent.keyboardKey 30 true)).state.trackedFds
      = (initState false [7]).trackedFds ∧
    (stepKey cfgExplicit sArmedOneKey KEY_G false).effs
      = (sArmedOneKey.trackedFds.map fun fd =>
          if (stepKey cfgExplicit sArmedOneKey KEY_G false).state.grabbed
          then SideEffect.ioctlGrab fd else SideEffect.ioctlUngrab fd) ∧
    (close_restricted ⟨["kbd"], true⟩ true 7 [7, 9]).1 = ([7, 9] : List ℤ).erase 7 :=
  ⟨C10_tracked_descriptors.1 "kbd" [] true 7 false [],
   C10_tracked_descriptors.2.1 cfgExplicit (initState false [7]) (RawEvent.keyboardKey 30 true),
   C10_tracked_descriptors.2.2.1 cfgExplicit sArmedOneKey KEY_G false (by decide),
   C10_tracked_descriptors.2.2.2 "kbd" [] true true 7 [7, 9]⟩

/-- C4: the propagation gate suppresses pointer relative-motion,
absolute-motion, button, and scroll events exactly when the explicit
device list is non-empty and the Grab State is Released; when Captured,
or in seat-wide mode (empty list), they always propagate (motion, warp
and button are forwarded; scroll is accumulated per axis). -/
theorem C4_pointer_gate (c : Config) (s : HState) (dx dy x y : ℚ) (code : ℕ)
    (pr : Bool) (ht vt : ℚ) :
    ((stepEvent c s (.pointerMotion dx dy)).outs
        = if specGateOpen c s = true then [OutEvent.motion dx dy (nextSeq s)] else []) ∧
    ((stepEvent c s (.pointerMotionAbsolute x y)).outs
        = if specGateOpen c s = true then [OutEvent.warp x y (nextSeq s) true] else []) ∧
    ((stepEvent c s (.pointerButton code pr)).outs
        = if specGateOpen c s = true then [OutEvent.button code pr (nextSeq s)] else []) ∧
    ((stepEvent c s (.pointerScrollWheel (some ht) (some vt))).state.scrollX
        = if specGateOpen c s = true then s.scrollX + ht / 120 else s.scrollX) ∧
    ((stepEvent c s (.pointerScrollWheel (some ht) (some vt))).state.scrollY
        = if specGateOpen c s = true then s.scrollY + vt / 120 else s.scrollY) := by
  rcases c with ⟨devs⟩
  cases devs <;> cases hg : s.grabbed <;>
    simp [stepEvent, specGateOpen, hg]

/-- C6 (counterexample): a key code above `KEY_MAX` (768) whose most
recent event is a press is nevertheless absent from the Held-Key Set —
the source updates the bitset only for `uKey <= KEY_MAX`. -/
theorem C6_high_key_counterexample :
    (runKeys cfgExplicit (initState false []) [(768, true)]).heldKeys = ∅ ∧
    768 ∉ (runKeys cfgExplicit (initState false []) [(768, true)]).heldKeys ∧
    lastKeyState [(768, true)] 768 = some true := by
  refine ⟨by decide, by decide, rfl⟩

/-- C6 (amended): after processing any key-event sequence from the
initial state, the Held-Key Set is exactly the key codes at most
`KEY_MAX` whose most recent event was a press; and the Held-Key Set is
updated on every key event, before the chord check and independently of
the propagation gate — its evolution is the pure bit-update replay,
whatever the configuration and the rest of the state. -/
theorem C6_held_key_set (c : Config) (g : Bool) (fds : List ℤ)
    (evs : List (ℕ × Bool)) (k : ℕ) :
    (k ∈ (runKeys c (initState g fds) evs).heldKeys ↔
      (k ≤ KEY_MAX ∧ lastKeyState evs k = some true)) ∧
    (∀ (c₂ : Config) (s : HState),
      (runKeys c₂ s evs).heldKeys = updateHeldRun s.heldKeys evs) := by
  constructor
  · rw [runKeys_heldKeys]
    have hinit : (initState g fds).heldKeys = ∅ := rfl
    rw [hinit]
    by_cases hk : k ≤ KEY_MAX
    · rw [updateHeldRun_mem_le k hk evs ∅]
      cases hl : lastKeyState evs k with
      | some p => simp [hk]
      | none => simp
    · rw [updateHeldRun_mem_gt k (by omega) evs ∅]
      simp [hk]
  · intro c₂ s
    exact runKeys_heldKeys evs c₂ s

/-- C7: within one `OnPollIn` call, no wheel event is emitted during the
drain loop; after the queue is drained exactly one combined wheel event,
carrying the two accumulated values and the next sequence number, is
emitted iff either accumulated value is nonzero (none if both are zero);
and both accumulators are reset to zero afterwards. -/
theorem C7_wheel_flush (c : Config) (s : HState) (evs : List RawEvent) :
    ((drain c s evs).outs.filter fun o => isWheel o) = [] ∧
    ((onPollIn c s evs).outs.filter fun o => isWheel o)
      = (if (drain c s evs).state.scrollX = 0 ∧ (drain c s evs).state.scrollY = 0
         then []
         else [OutEvent.wheel (drain c s evs).state.scrollX (drain c s evs).state.scrollY
                (onPollIn c s evs).state.uSequence]) ∧
    (onPollIn c s evs).state.scrollX = 0 ∧
    (onPollIn c s evs).state.scrollY = 0 := by
  refine ⟨drain_wheel_filter evs c s, ?_, ?_, ?_⟩
  · simp only [onPollIn, List.filter_append, drain_wheel_filter evs c s, List.nil_append]
    by_cases hcond : (drain c s evs).state.scrollX = 0 ∧ (drain c s evs).state.scrollY = 0
    · rw [if_pos hcond]
      unfold flushScroll
      rw [if_neg (by simp [hcond.1, hcond.2])]
      rfl
    · rw [if_neg hcond]
      unfold flushScroll
      rw [if_pos (by rw [ne_eq, ne_eq, ← not_and_or]; exact hcond)]
      simp [isWheel, nextSeq]
  · simp only [onPollIn]
    unfold flushScroll
    split <;> rfl
  · simp only [onPollIn]
    unfold flushScroll
    split <;> rfl

/-- C8: scroll accumulation within one drain cycle is order-independent:
feeding the high-resolution ticks 60, -30, 90 on the vertical axis in any
order yields a single flushed wheel event with vertical value
`120/120 = 1`, not three separate events. -/
theorem C8_scroll_order_independent (l : List ℚ) (hperm : l.Perm [60, -30, 90]) :
    (onPollIn ⟨[]⟩ (initState false [])
        (l.map fun t => RawEvent.pointerScrollWheel none (some t))).outs
      = [OutEvent.wheel 0 1 1] := by
  have hsum : (l.map fun t => t / 120).sum = 1 := by
    rw [(hperm.map fun t => t / 120).sum_eq]
    norm_num
  obtain ⟨hY, hX, hSeq, hOuts⟩ := drain_vscroll l (initState false [])
  have hx0 : (drain ⟨[]⟩ (initState false [])
      (l.map fun t => RawEvent.pointerScrollWheel none (some t))).state.scrollX = 0 :=
    hX.trans rfl
  have hy1 : (drain ⟨[]⟩ (initState false [])
      (l.map fun t => RawEvent.pointerScrollWheel none (some t))).state.scrollY = 1 := by
    rw [hY, hsum]
    show (0 : ℚ) + 1 = 1
    norm_num
  have hs0 : (drain ⟨[]⟩ (initState false [])
      (l.map fun t => RawEvent.pointerScrollWheel none (some t))).state.uSequence = 0 :=
    hSeq.trans rfl
  have hns : nextSeq (drain ⟨[]⟩ (initState false [])
      (l.map fun t => RawEvent.pointerScrollWheel none (some t))).state = 1 := by
    unfold nextSeq
    rw [hs0]
    decide
  simp only [onPollIn]
  unfold flushScroll
  rw [hOuts, hx0, hy1, hns, if_pos (Or.inr (one_ne_zero))]
  simp

/-- C8 (witness): the identity ordering of the three ticks satisfies the
permutation hypothesis and produces the single wheel event. -/
theorem C8_scroll_order_witness :
    ([60, -30, 90] : List ℚ).Perm [60, -30, 90] ∧
    (onPollIn ⟨[]⟩ (initState false [])
        (([60, -30, 90] : List ℚ).map fun t => RawEvent.pointerScrollWheel none (some t))).outs
      = [OutEvent.wheel 0 1 1] :=
  ⟨List.Perm.refl _, C8_scroll_order_independent [60, -30, 90] (List.Perm.refl _)⟩

/-- C5 (amended): within a poll cycle the shared sequence counter is
incremented exactly once per emitted event of any kind, and the sequence
numbers attached to the emitted events are consecutive values of the
32-bit counter: the i-th emitted event carries
`(start + i + 1) mod 2^32`, and the counter afterwards equals
`(start + emitted) mod 2^32`.  (Being a `uint32_t`, the counter
increases by 1 only modulo `2^32`.) -/
theorem C5_sequence_amended (c : Config) (s : HState) (evs : List RawEvent)
    (h : s.uSequence < 2 ^ 32) :
    (onPollIn c s evs).outs.map outSeq
      = (List.range (onPollIn c s evs).outs.length).map
          (fun i => (s.uSequence + i + 1) % 2 ^ 32) ∧
    (onPollIn c s evs).state.uSequence
      = (s.uSequence + (onPollIn c s evs).outs.length) % 2 ^ 32 :=
  onPollIn_seq c s evs h

/-- C5 (witness): a two-event run from the initial counter gets sequence
numbers 1 and 2 and leaves the counter at 2. -/
theorem C5_sequence_witness :
    (initState false []).uSequence < 2 ^ 32 ∧
    ((onPollIn ⟨[]⟩ (initState false [])
        [RawEvent.pointerMotion 1 0, RawEvent.pointerButton 272 true]).outs.map outSeq
      = (List.range (onPollIn ⟨[]⟩ (initState false [])
            [RawEvent.pointerMotion 1 0, RawEvent.pointerButton 272 true]).outs.length).map
          (fun i => ((initState false []).uSequence + i + 1) % 2 ^ 32) ∧
     (onPollIn ⟨[]⟩ (initState false [])
        [RawEvent.pointerMotion 1 0, RawEvent.pointerButton 272 true]).state.uSequence
      = ((initState false []).uSequence + (onPollIn ⟨[]⟩ (initState false [])
            [RawEvent.pointerMotion 1 0, RawEvent.pointerButton 272 true]).outs.length)
          % 2 ^ 32) :=
  ⟨by decide, C5_sequence_amended ⟨[]⟩ (initState false [])
      [RawEvent.pointerMotion 1 0, RawEvent.pointerButton 272 true] (by decide)⟩

/-- C5 (counterexample): the counter is a `uint32_t`, so over a run of
`2^32` forwarded events the attached sequence numbers wrap: event number
`2^32 - 2` (0-based) carries `2^32 - 1` and the next event carries `0`,
which is not the predecessor plus 1 — "strictly increase by 1" fails at
the wraparound. -/
theorem C5_sequence_counterexample :
    (onPollIn ⟨[]⟩ (initState false [])
        (List.replicate (2 ^ 32) (RawEvent.pointerMotion 1 0))).outs.length = 2 ^ 32 ∧
    ((onPollIn ⟨[]⟩ (initState false [])
        (List.replicate (2 ^ 32) (RawEvent.pointerMotion 1 0))).outs.map outSeq).getD
        (2 ^ 32 - 2) 0 = 2 ^ 32 - 1 ∧
    ((onPollIn ⟨[]⟩ (initState false [])
        (List.replicate (2 ^ 32) (RawEvent.pointerMotion 1 0))).outs.map outSeq).getD
        (2 ^ 32 - 1) 0 = 0 ∧
    ¬ (((onPollIn ⟨[]⟩ (initState false [])
          (List.replicate (2 ^ 32) (RawEvent.pointerMotion 1 0))).outs.map outSeq).getD
          (2 ^ 32 - 1) 0
        = ((onPollIn ⟨[]⟩ (initState false [])
            (List.replicate (2 ^ 32) (RawEvent.pointerMotion 1 0))).outs.map outSeq).getD
            (2 ^ 32 - 2) 0 + 1) := by
  obtain ⟨hl, hx, hy⟩ := drain_replicate_motion (2 ^ 32) (initState false [])
  have hx0 : (drain ⟨[]⟩ (initState false [])
      (List.replicate (2 ^ 32) (RawEvent.pointerMotion 1 0))).state.scrollX = 0 :=
    hx.trans rfl
  have hy0 : (drain ⟨[]⟩ (initState false [])
      (List.replicate (2 ^ 32) (RawEvent.pointerMotion 1 0))).state.scrollY = 0 :=
    hy.trans rfl
  have houts : (onPollIn ⟨[]⟩ (initState false [])
        (List.replicate (2 ^ 32) (RawEvent.pointerMotion 1 0))).outs
      = (drain ⟨[]⟩ (initState false [])
          (List.replicate (2 ^ 32) (RawEvent.pointerMotion 1 0))).outs := by
    simp only [onPollIn]
    unfold flushScroll
    rw [if_neg (by rw [hx0, hy0]; simp)]
    exact List.append_nil _
  have hlen : (onPollIn ⟨[]⟩ (initState false [])
      (List.replicate (2 ^ 32) (RawEvent.pointerMotion 1 0))).outs.length = 2 ^ 32 := by
    rw [houts, hl]
  obtain ⟨hmap, hfin⟩ := onPollIn_seq ⟨[]⟩ (initState false [])
    (List.replicate (2 ^ 32) (RawEvent.pointerMotion 1 0)) (by decide)
  rw [hlen] at hmap
  refine ⟨hlen, ?_, ?_, ?_⟩
  · rw [hmap, getD_range_map _ _ _ (by norm_num)]
    show ((0 : ℕ) + (2 ^ 32 - 2) + 1) % 2 ^ 32 = 2 ^ 32 - 1
    norm_num
  · rw [hmap, getD_range_map _ _ _ (by norm_num)]
    show ((0 : ℕ) + (2 ^ 32 - 1) + 1) % 2 ^ 32 = 0
    norm_num
  · rw [hmap, getD_range_map _ _ _ (by norm_num), getD_range_map _ _ _ (by norm_num)]
    show ¬ (((0 : ℕ) + (2 ^ 32 - 1) + 1) % 2 ^ 32
        = ((0 : ℕ) + (2 ^ 32 - 2) + 1) % 2 ^ 32 + 1)
    norm_num

theorem stepKey_state_held (c : Config) (s : HState) (k : ℕ) (p : Bool) :
    (stepKey c s k p).state.heldKeys = heldAfter s k p := by
  unfold stepKey
  split
  · rfl
  · split <;> rfl

theorem stepKey_fired_heldKeys (c : Config) (s : HState) (k : ℕ) (p : Bool) :
    (stepKey c s k p).fired = true → (stepKey c s k p).state.heldKeys = ∅ := by
  unfold stepKey
  split
  case isTrue hc => intro _; exact hc.2
  case isFalse hc => split <;> (intro h; simp at h)

theorem stepKey_fired_grabbed (c : Config) (s : HState) (k : ℕ) (p : Bool) :
    (stepKey c s k p).fired = true → (stepKey c s k p).state.grabbed = !s.grabbed := by
  unfold stepKey
  split
  · intro _; rfl
  · split <;> (intro h; simp at h)

theorem stepKey_fired_armed_before (c : Config) (s : HState) (k : ℕ) (p : Bool) :
    (stepKey c s k p).fired = true → s.armed = true := by
  unfold stepKey
  split
  case isTrue hc =>
    intro _
    have h1 := hc.1
    have hni : ¬(KEY_G ∈ heldAfter s k p ∧ KEY_LEFTMETA ∈ heldAfter s k p) := by
      rw [hc.2]
      simp
    unfold armedAfter at h1
    rw [if_neg hni] at h1
    exact h1
  case isFalse hc => split <;> (intro h; simp at h)

theorem stepKey_fired_armed_after (c : Config) (s : HState) (k : ℕ) (p : Bool) :
    (stepKey c s k p).fired = true → (stepKey c s k p).state.armed = false := by
  unfold stepKey
  split
  · intro _; rfl
  · split <;> (intro h; simp at h)

theorem stepKey_notfired_armed (c : Config) (s : HState) (k : ℕ) (p : Bool) :
    (stepKey c s k p).fired = false →
      (stepKey c s k p).state.armed = armedAfter s k p := by
  unfold stepKey
  split
  · intro h; simp at h
  · split <;> (intro _; rfl)

theorem armedAfter_mono (s : HState) (k : ℕ) (p : Bool) (h : s.armed = true) :
    armedAfter s k p = true := by
  unfold armedAfter
  split
  · rfl
  · exact h

theorem armedAfter_flip (s : HState) (k : ℕ) (p : Bool) (h0 : s.armed = false)
    (h1 : armedAfter s k p = true) :
    KEY_G ∈ heldAfter s k p ∧ KEY_LEFTMETA ∈ heldAfter s k p := by
  by_cases hc : KEY_G ∈ heldAfter s k p ∧ KEY_LEFTMETA ∈ heldAfter s k p
  · exact hc
  · exfalso
    unfold armedAfter at h1
    rw [if_neg hc, h0] at h1
    simp at h1

theorem stepKey_chord_armed (c : Config) (s : HState) (k : ℕ) (p : Bool)
    (hG : KEY_G ∈ (stepKey c s k p).state.heldKeys)
    (hM : KEY_LEFTMETA ∈ (stepKey c s k p).state.heldKeys) :
    (stepKey c s k p).state.armed = true := by
  rw [stepKey_state_held] at hG hM
  unfold stepKey
  split
  case isTrue hc =>
    exfalso
    rw [hc.2] at hG
    simp at hG
  case isFalse hc =>
    split
    · show armedAfter s k p = true
      unfold armedAfter
      rw [if_pos ⟨hG, hM⟩]
    · show armedAfter s k p = true
      unfold armedAfter
      rw [if_pos ⟨hG, hM⟩]

theorem stepKey_armed_persist (c : Config) (s : HState) (k : ℕ) (p : Bool)
    (ha : s.armed = true) (hne : (stepKey c s k p).state.heldKeys ≠ ∅) :
    (stepKey c s k p).state.armed = true := by
  cases hf : (stepKey c s k p).fired with
  | false =>
      rw [stepKey_notfired_armed c s k p hf]
      exact armedAfter_mono s k p ha
  | true => exact absurd (stepKey_fired_heldKeys c s k p hf) hne

theorem stepKey_fires_of (c : Config) (s : HState) (k : ℕ) (p : Bool)
    (ha : s.armed = true) (he : heldAfter s k p = ∅) :
    (stepKey c s k p).fired = true := by
  unfold stepKey
  rw [if_pos ⟨armedAfter_mono s k p ha, he⟩]

theorem stepKey_armed_flip (c : Config) (s : HState) (k : ℕ) (p : Bool)
    (h0 : s.armed = false) (h1 : (stepKey c s k p).state.armed = true) :
    KEY_G ∈ (stepKey c s k p).state.heldKeys ∧
    KEY_LEFTMETA ∈ (stepKey c s k p).state.heldKeys := by
  cases hf : (stepKey c s k p).fired with
  | true =>
      have := stepKey_fired_armed_after c s k p hf
      rw [this] at h1
      exact absurd h1 (by simp)
  | false =>
      have harm := stepKey_notfired_armed c s k p hf
      rw [harm] at h1
      rw [stepKey_state_held]
      exact armedAfter_flip s k p h0 h1

theorem runKeys_append (c : Config) (l₁ l₂ : List (ℕ × Bool)) : ∀ s : HState,
    runKeys c s (l₁ ++ l₂) = runKeys c (runKeys c s l₁) l₂ := by
  induction l₁ with
  | nil => intro s; rfl
  | cons e rest ih =>
      intro s
      simp only [List.cons_append, runKeys]
      exact ih _

theorem stateAt_succ (c : Config) (s : HState) (evs : List (ℕ × Bool)) (i : ℕ)
    (e : ℕ × Bool) (he : evs.get? i = some e) :
    stateAt c s evs (i + 1) = (stepKey c (stateAt c s evs i) e.1 e.2).state := by
  have he' : evs[i]? = some e := by
    rw [← List.get?_eq_getElem?]
    exact he
  unfold stateAt
  rw [List.take_succ, he', runKeys_append]
  rfl

theorem stateAt_stable (c : Config) (s : HState) (evs : List (ℕ × Bool)) (i : ℕ)
    (h : evs.length ≤ i) : stateAt c s evs i = stateAt c s evs evs.length := by
  unfold stateAt
  rw [List.take_of_length_le h, List.take_length]

theorem firedAt_eq (c : Config) (s : HState) (evs : List (ℕ × Bool)) (i : ℕ)
    (e : ℕ × Bool) (he : evs.get? i = some e) :
    firedAt c s evs i = (stepKey c (stateAt c s evs i) e.1 e.2).fired := by
  simp only [firedAt, he]

theorem firedAt_false_of_le (c : Config) (s : HState) (evs : List (ℕ × Bool)) (i : ℕ)
    (h : evs.length ≤ i) : firedAt c s evs i = false := by
  have hn : evs.get? i = none := List.get?_eq_none.mpr h
  simp only [firedAt, hn]

theorem firedAt_lt (c : Config) (s : HState) (evs : List (ℕ × Bool)) (i : ℕ)
    (h : firedAt c s evs i = true) : i < evs.length := by
  by_contra hh
  push_neg at hh
  rw [firedAt_false_of_le c s evs i hh] at h
  simp at h

theorem firedAt_some (c : Config) (s : HState) (evs : List (ℕ × Bool)) (i : ℕ)
    (h : firedAt c s evs i = true) :
    ∃ e, evs.get? i = some e ∧
      (stepKey c (stateAt c s evs i) e.1 e.2).fired = true := by
  have hlt := firedAt_lt c s evs i h
  refine ⟨evs.get ⟨i, hlt⟩, List.get?_eq_get hlt, ?_⟩
  rw [← firedAt_eq c s evs i _ (List.get?_eq_get hlt)]
  exact h

theorem armed_ivt (c : Config) (s : HState) (evs : List (ℕ × Bool)) :
    ∀ (b a : ℕ), a ≤ b → (stateAt c s evs a).armed = false →
      (stateAt c s evs b).armed = true →
      ∃ k, a ≤ k ∧ k < b ∧ (stateAt c s evs k).armed = false ∧
        (stateAt c s evs (k + 1)).armed = true := by
  intro b
  induction b with
  | zero =>
      intro a ha h0 h1
      have : a = 0 := Nat.le_zero.mp ha
      subst this
      rw [h0] at h1
      simp at h1
  | succ m ih =>
      intro a ha h0 h1
      by_cases hm : (stateAt c s evs m).armed = true
      · have ham : a ≤ m := by
          by_contra hh
          have : a = m + 1 := by omega
          subst this
          rw [h0] at h1
          simp at h1
        obtain ⟨k, hk1, hk2, hk3, hk4⟩ := ih a ham h0 hm
        exact ⟨k, hk1, by omega, hk3, hk4⟩
      · have hmf : (stateAt c s evs m).armed = false := by
          cases hx : (stateAt c s evs m).armed
          · rfl
          · exact absurd hx hm
        have ham : a ≤ m := by
          by_contra hh
          have : a = m + 1 := by omega
          subst this
          rw [h0] at h1
          simp at h1
        exact ⟨m, ham, by omega, hmf, h1⟩

theorem armed_flip_chord (c : Config) (s : HState) (evs : List (ℕ × Bool)) (k : ℕ)
    (h0 : (stateAt c s evs k).armed = false)
    (h1 : (stateAt c s evs (k + 1)).armed = true) :
    k < evs.length ∧
    KEY_G ∈ (stateAt c s evs (k + 1)).heldKeys ∧
    KEY_LEFTMETA ∈ (stateAt c s evs (k + 1)).heldKeys := by
  by_cases hk : k < evs.length
  · have he := List.get?_eq_get hk
    have hsucc := stateAt_succ c s evs k _ he
    rw [hsucc] at h1 ⊢
    exact ⟨hk, stepKey_armed_flip c _ _ _ h0 h1⟩
  · exfalso
    push_neg at hk
    have hs1 : stateAt c s evs (k + 1) = stateAt c s evs evs.length :=
      stateAt_stable c s evs (k + 1) (by omega)
    have hs0 : stateAt c s evs k = stateAt c s evs evs.length :=
      stateAt_stable c s evs k hk
    rw [hs1] at h1
    rw [hs0] at h0
    rw [h0] at h1
    simp at h1

/-- C3: for every key-event sequence, (1) the toggle never fires while
any key remains held (the Held-Key Set is empty right after a firing
event); (2) a firing event inverts the Grab State; (3) the toggle never
fires twice for one full release: between any two firings there is an
event after which both chord keys (KEY_G, KEY_LEFTMETA) are
simultaneously held again; (4) it does fire once per cycle: if the chord
is held after event k and event m is the first event after k that
empties the Held-Key Set, the toggle fires at m. -/
theorem C3_chord_toggle (c : Config) (s : HState) (evs : List (ℕ × Bool)) :
    (∀ i, firedAt c s evs i = true → (stateAt c s evs (i + 1)).heldKeys = ∅) ∧
    (∀ i, firedAt c s evs i = true →
      (stateAt c s evs (i + 1)).grabbed = !(stateAt c s evs i).grabbed) ∧
    (∀ i j, i < j → firedAt c s evs i = true → firedAt c s evs j = true →
      ∃ k, i < k ∧ k < j ∧ KEY_G ∈ (stateAt c s evs (k + 1)).heldKeys ∧
        KEY_LEFTMETA ∈ (stateAt c s evs (k + 1)).heldKeys) ∧
    (∀ k m, k < m → m < evs.length →
      KEY_G ∈ (stateAt c s evs (k + 1)).heldKeys →
      KEY_LEFTMETA ∈ (stateAt c s evs (k + 1)).heldKeys →
      (stateAt c s evs (m + 1)).heldKeys = ∅ →
      (∀ l, l < m → k < l → (stateAt c s evs (l + 1)).heldKeys ≠ ∅) →
      firedAt c s evs m = true) := by
  refine ⟨?_, ?_, ?_, ?_⟩
  · intro i hf
    obtain ⟨e, he, hfe⟩ := firedAt_some c s evs i hf
    rw [stateAt_succ c s evs i e he]
    exact stepKey_fired_heldKeys c _ _ _ hfe
  · intro i hf
    obtain ⟨e, he, hfe⟩ := firedAt_some c s evs i hf
    rw [stateAt_succ c s evs i e he]
    exact stepKey_fired_grabbed c _ _ _ hfe
  · intro i j hij hfi hfj
    obtain ⟨ei, hei, hfei⟩ := firedAt_some c s evs i hfi
    obtain ⟨ej, hej, hfej⟩ := firedAt_some c s evs j hfj
    have hai : (stateAt c s evs (i + 1)).armed = false := by
      rw [stateAt_succ c s evs i ei hei]
      exact stepKey_fired_armed_after c _ _ _ hfei
    have haj : (stateAt c s evs j).armed = true :=
      stepKey_fired_armed_before c _ _ _ hfej
    obtain ⟨k, hk1, hk2, hk3, hk4⟩ := armed_ivt c s evs j (i + 1) (by omega) hai haj
    obtain ⟨hklen, hG, hM⟩ := armed_flip_chord c s evs k hk3 hk4
    exact ⟨k, by omega, by omega, hG, hM⟩
  · intro k m hkm hmlen hG hM hempty hmin
    have hklen : k < evs.length := by omega
    have hek := List.get?_eq_get hklen
    have hbase : (stateAt c s evs (k + 1)).armed = true := by
      rw [stateAt_succ c s evs k _ hek] at hG hM ⊢
      exact stepKey_chord_armed c _ _ _ hG hM
    have hpers : ∀ d, k + 1 + d ≤ m → (stateAt c s evs (k + 1 + d)).armed = true := by
      intro d
      induction d with
      | zero => intro _; exact hbase
      | succ d ihd =>
          intro hd
          have harm := ihd (by omega)
          have hllen : k + 1 + d < evs.length := by omega
          have hel := List.get?_eq_get hllen
          have hnonempty : (stateAt c s evs (k + 1 + d + 1)).heldKeys ≠ ∅ :=
            hmin (k + 1 + d) (by omega) (by omega)
          have hstep := stateAt_succ c s evs (k + 1 + d) _ hel
          rw [hstep] at hnonempty
          show (stateAt c s evs (k + 1 + d + 1)).armed = true
          rw [hstep]
          exact stepKey_armed_persist c _ _ _ harm hnonempty
    have harmm : (stateAt c s evs m).armed = true := by
      have hp := hpers (m - (k + 1)) (by omega)
      have heq : k + 1 + (m - (k + 1)) = m := by omega
      rw [heq] at hp
      exact hp
    have hmm := List.get?_eq_get hmlen
    have hsm := stateAt_succ c s evs m _ hmm
    rw [hsm] at hempty
    have hheld : heldAfter (stateAt c s evs m) (evs.get ⟨m, hmlen⟩).1
        (evs.get ⟨m, hmlen⟩).2 = ∅ := by
      rw [← stepKey_state_held c]
      exact hempty
    rw [firedAt_eq c s evs m _ hmm]
    exact stepKey_fires_of c (stateAt c s evs m) _ _ harmm hheld

/-- C3 (witness): two back-to-back chord cycles in explicit mode from the
initial state: the toggle fires at events 3 and 7 (the final releases);
after event 3 the Held-Key Set is empty and the Grab State flipped;
between the two firings the chord is re-held; and with the chord held
after event 1 and event 3 the first to empty the set, part (4)
re-derives the firing at event 3. -/
theorem C3_chord_toggle_witness :
    ((stateAt cfgExplicit (initState false []) twoChordCycles 4).heldKeys = ∅) ∧
    ((stateAt cfgExplicit (initState false []) twoChordCycles 4).grabbed
        = !(stateAt cfgExplicit (initState false []) twoChordCycles 3).grabbed) ∧
    (∃ k, 3 < k ∧ k < 7 ∧
      KEY_G ∈ (stateAt cfgExplicit (initState false []) twoChordCycles (k + 1)).heldKeys ∧
      KEY_LEFTMETA ∈ (stateAt cfgExplicit (initState false []) twoChordCycles (k + 1)).heldKeys) ∧
    (firedAt cfgExplicit (initState false []) twoChordCycles 3 = true) :=
  ⟨(C3_chord_toggle cfgExplicit (initState false []) twoChordCycles).1 3 (by decide),
   (C3_chord_toggle cfgExplicit (initState false []) twoChordCycles).2.1 3 (by decide),
   (C3_chord_toggle cfgExplicit (initState false []) twoChordCycles).2.2.1 3 7
     (by decide) (by decide) (by decide),
   (C3_chord_toggle cfgExplicit (initState false []) twoChordCycles).2.2.2 1 3
     (by decide) (by decide) (by decide) (by decide) (by decide) (by decide)⟩
